import Mathlib

/-!
Verification development for the `pnc` postfix calculator.

The Rust sources are shallowly embedded below:

* `words.rs`   — `Value`, `Operation`, `BuiltinWord`, literal parsing;
* `dict.rs`    — the scope chain `Inner` with alias-chasing `lookup`,
  `insert`, `insert_alias` and the default dictionary;
* `calc.rs`    — the evaluator (`Calc`, `run_one`, `run`, `run_builtin`
  and the operand-popping helpers);
* `builtins.rs` — the `fold1` and `if` builtins absent from `calc.rs`.

Modelling conventions, fixed once here:

* The arbitrary-precision `BigInt` is `Int`.
* The 64-bit float is modelled as `ℚ` (exact arithmetic); rounding of
  `f64` operations is not modelled.  No theorem below depends on float
  rounding, only on zero tests and on which `Value` constructor results.
* `Vec<Value>` used as the value stack is a `List` with the head as the
  top of the stack; a `Vec` stored inside `Value::Vector` keeps the Rust
  order (bottom of the producing stack first), hence the single
  `List.reverse` where a collecting frame closes.
* `HashMap::insert` overwrites; with lookup taking the first matching
  key of an association list, prepending the new pair is that overwrite.
* Interior mutability (`Rc<RefCell<..>>`) never lets a child mutate a
  parent scope, so the scope chain is embedded as a value.
* The interpreter can diverge (alias cycles, recursive word definitions),
  so every run function takes fuel; the outer `Option` is `none` exactly
  when the fuel runs out, and `run_one` consumes one unit per call.
* Errors abort a run but the mutated evaluator state at the abort point
  is observable in Rust (operand popping is non-transactional), so a run
  returns `Calc × Option Err`: the state reached, and the error if one
  aborted the run.
-/

namespace Pnc

/-- Word, the plain name string used as dictionary key and input token
(`words.rs`: `pub type Word = String`). -/
abbrev Word := String

/-- Builtin operation tags (`words.rs` `BuiltinWord`).  The source enum
also lists `Mod`, `Sqrt`, `Pow`, `Exp`, `Log`, `Ln` and the trig family;
those variants are never registered in the default dictionary and have no
implementation anywhere under `src/`, so they are omitted as unreachable. -/
inductive BuiltinWord where
  | Add | Sub | Mul | Div
  | Fold | Fold1 | Map | Filter | Repeat
  | Max | Min | Cmp
  | Alias | Def | Apply | Arg
  | Swap | Duplicate | Pop | Over | Roll3
  | Print | Dump | Stdin
  | Length
  | If
  deriving DecidableEq, Repr

/-- Runtime value (`words.rs` `Value`).  `Int` stands for `BigInt`,
`ℚ` for `f64` (see the module conventions). -/
inductive Value where
  | Undef
  | Bool (b : Bool)
  | Int (i : Int)
  | Float (q : ℚ)
  | Vector (elems : List Value)
  | Block (tokens : List Word)
  | QuotedWord (w : Word)

/-- Dictionary operation (`calc.rs` / `dict.rs` era `Operation`): a
builtin tag or a bound block of tokens. -/
inductive Operation where
  | Builtin (b : BuiltinWord)
  | Block (tokens : List Word)
  deriving DecidableEq, Repr

/-- Dictionary entry (`dict.rs` `Entry`): an alias to another word, or an
operation. -/
inductive Entry where
  | Alias (target : Word)
  | Op (op : Operation)
  deriving DecidableEq, Repr

/-- One scope of the dictionary chain (`dict.rs` `Inner`): an owned
name-to-entry map plus an optional parent scope. -/
inductive Inner where
  | root (map : List (Word × Entry))
  | child (map : List (Word × Entry)) (parent : Inner)
  deriving DecidableEq, Repr

/-- Local map of a scope. -/
def Inner.map : Inner → List (Word × Entry)
  | .root m => m
  | .child m _ => m

/-- First-match association-list lookup (the `HashMap::get` of the local
map; keys are unique in the Rust map, and insertion prepends here). -/
def lookupAssoc : List (Word × Entry) → Word → Option Entry
  | [], _ => none
  | (k, e) :: rest, w => if k = w then some e else lookupAssoc rest w

/-- Insertion into the local map of a scope (`Dictionary::insert` /
`insert_alias` both funnel through `map.insert`, which overwrites). -/
def Inner.insertLocal : Inner → Word → Entry → Inner
  | .root m, k, e => .root ((k, e) :: m)
  | .child m p, k, e => .child ((k, e) :: m) p

/-- Local alias chasing of `Inner::lookup` (`dict.rs` lines 19-37): while
the entry at hand is an `Alias`, re-look its target up in the local map;
an `Op` ends the chase, a missing local entry delegates the last
unresolved name.  `fuel` bounds the chase: the Rust `while let` loop
diverges on an alias cycle, which is `none` here. -/
def chaseLocal (m : List (Word × Entry)) (fuel : Nat) (entry : Option Entry)
    (word : Word) : Option (Operation ⊕ Word) :=
  match entry with
  | some (Entry.Op o) => some (Sum.inl o)
  | none => some (Sum.inr word)
  | some (Entry.Alias target) =>
    match lookupAssoc m target with
    | none => some (Sum.inr target)
    | some e =>
      match fuel with
      | 0 => none
      | f + 1 => chaseLocal m f (some e) target

/-- Scope-chain lookup (`dict.rs` `Inner::lookup` plus the delegation of
`Dictionary::lookup`): chase aliases locally, return an operation, or
delegate the last unresolved name to the parent; at the root an
unresolved name is `some none` (no result).  The outer `none` is fuel
exhaustion (an alias cycle, on which the Rust loop never returns). -/
def Inner.lookup : Inner → Nat → Word → Option (Option Operation)
  | Inner.root m, fuel, word =>
    match chaseLocal m fuel (lookupAssoc m word) word with
    | none => none
    | some (Sum.inl o) => some (some o)
    | some (Sum.inr _) => some none
  | Inner.child m p, fuel, word =>
    match chaseLocal m fuel (lookupAssoc m word) word with
    | none => none
    | some (Sum.inl o) => some (some o)
    | some (Sum.inr w) => Inner.lookup p fuel w

/-- Builtin registrations performed by `impl Default for Dictionary`
(`dict.rs` lines 113-146), in source order. -/
def defaultInserts : List (Word × Operation) :=
  [ ("apply", .Builtin .Apply)
  , ("add", .Builtin .Add)
  , ("alias", .Builtin .Alias)
  , ("def", .Builtin .Def)
  , ("div", .Builtin .Div)
  , ("dup", .Builtin .Duplicate)
  , ("fold", .Builtin .Fold)
  , ("fold1", .Builtin .Fold1)
  , ("len", .Builtin .Length)
  , ("map", .Builtin .Map)
  , ("filter", .Builtin .Filter)
  , ("mul", .Builtin .Mul)
  , ("over", .Builtin .Over)
  , ("pop", .Builtin .Pop)
  , ("print", .Builtin .Print)
  , ("dump", .Builtin .Dump)
  , ("repeat", .Builtin .Repeat)
  , ("roll3", .Builtin .Roll3)
  , ("stdin", .Builtin .Stdin)
  , ("sub", .Builtin .Sub)
  , ("swap", .Builtin .Swap)
  , ("arg", .Builtin .Arg)
  , ("min", .Builtin .Min)
  , ("max", .Builtin .Max)
  , ("cmp", .Builtin .Cmp)
  , ("if", .Builtin .If) ]

/-- The persistent global scope produced by `Dictionary::default()`. -/
def defaultDict : Inner :=
  Inner.root (defaultInserts.foldl (fun m kv => (kv.1, Entry.Op kv.2) :: m) [])

/-! ## Literal parsing (`words.rs` `Value::parse`) -/

/-- Decimal digit test on a character (ASCII 48-57). -/
def isDigitChar (c : Char) : Bool :=
  decide (48 ≤ c.toNat ∧ c.toNat ≤ 57)

/-- Value of a decimal digit character, `none` for non-digits. -/
def digitVal (c : Char) : Option Nat :=
  if 48 ≤ c.toNat ∧ c.toNat ≤ 57 then some (c.toNat - 48) else none

/-- Accumulating decimal read of a digit string; any non-digit rejects. -/
def digitsToNatAux : List Char → Nat → Option Nat
  | [], acc => some acc
  | c :: rest, acc =>
    match digitVal c with
    | some d => digitsToNatAux rest (acc * 10 + d)
    | none => none

/-- Decimal value of a nonempty all-digit string (`BigInt` digit parsing;
the empty string is rejected as in `num`'s `from_str_radix`). -/
def digitsToNat : List Char → Option Nat
  | [] => none
  | c :: rest => digitsToNatAux (c :: rest) 0

/-- Integer literal grammar of `BigInt::parse_bytes(_, 10)`: an optional
sign followed by one or more decimal digits. -/
def parseIntChars (l : List Char) : Option Int :=
  match l with
  | [] => none
  | c :: rest =>
    if c = '+' then Option.map (fun n => (n : Int)) (digitsToNat rest)
    else if c = '-' then Option.map (fun n => -(n : Int)) (digitsToNat rest)
    else Option.map (fun n => (n : Int)) (digitsToNat (c :: rest))

/-- Fractional part `d₁…dₖ` read as `d₁…dₖ / 10^k`. -/
def fracVal (l : List Char) : ℚ :=
  match digitsToNat l with
  | some n => (n : ℚ) / ((10 : ℚ) ^ l.length)
  | none => 0

/-- Unsigned mantissa of the `f64` grammar: digits, optionally a point
and further digits; at least one digit overall. -/
def parseMantissa (l : List Char) : Option ℚ :=
  let intPart := l.takeWhile isDigitChar
  let rest := l.dropWhile isDigitChar
  match rest with
  | [] =>
    match digitsToNat intPart with
    | some n => some (n : ℚ)
    | none => none
  | '.' :: fracRest =>
    let frac := fracRest.takeWhile isDigitChar
    if fracRest.dropWhile isDigitChar ≠ [] then none
    else if intPart = [] ∧ frac = [] then none
    else
      match digitsToNat intPart with
      | some n => some ((n : ℚ) + fracVal frac)
      | none => some (fracVal frac)
  | _ => none

/-- Exponent suffix `e±ddd` of the `f64` grammar (empty input means no
exponent, read as 0). -/
def parseExponent (l : List Char) : Option Int :=
  match l with
  | [] => some 0
  | c :: rest =>
    if c = 'e' ∨ c = 'E' then parseIntChars rest
    else none

/-- Float literal grammar of `str::parse::<f64>` over the exact-rational
float model: optional sign, mantissa, optional exponent.  The special
forms `inf`/`infinity`/`NaN` are not modelled (no claim reaches them),
and the value is exact rather than rounded to the nearest `f64`. -/
def parseFloatChars (l : List Char) : Option ℚ :=
  let signed : List Char → Option ℚ := fun body =>
    let mantPart := body.takeWhile (fun c => isDigitChar c || c = '.')
    let expPart := body.dropWhile (fun c => isDigitChar c || c = '.')
    match parseMantissa mantPart with
    | none => none
    | some m =>
      match parseExponent expPart with
      | none => none
      | some e => some (m * (10 : ℚ) ^ e)
  match l with
  | [] => none
  | c :: rest =>
    if c = '+' then signed rest
    else if c = '-' then Option.map (fun q => -q) (signed rest)
    else signed (c :: rest)

/-- Whitespace test used by `str::trim`.  Rust trims the full Unicode
`White_Space` set; the ASCII subset suffices for every token a claim
mentions. -/
def wsChar (c : Char) : Bool :=
  decide (c.toNat = 32 ∨ c.toNat = 9 ∨ c.toNat = 10 ∨ c.toNat = 13)

/-- Trim of `str::trim`: drop leading and trailing whitespace. -/
def trimChars (l : List Char) : List Char :=
  ((l.dropWhile wsChar).reverse.dropWhile wsChar).reverse

/-- Literal parse (`words.rs` `Value::parse`): trim, then try the
arbitrary-precision integer grammar, then the float grammar. -/
def Value.parse (s : String) : Option Value :=
  let t := trimChars s.data
  match parseIntChars t with
  | some n => some (Value.Int n)
  | none =>
    match parseFloatChars t with
    | some q => some (Value.Float q)
    | none => none

/-! ## Numeric coercions (`words.rs`) -/

/-- Coercion `Value::as_int`: integers only, no cast. -/
def asInt : Value → Option Int
  | Value.Int i => some i
  | _ => none

/-- Truncation toward zero of the rational float model (`f as i64`
before saturation). -/
def truncToZero (q : ℚ) : Int := if 0 ≤ q then ⌊q⌋ else ⌈q⌉

/-- Coercion `Value::as_int_cast`: `BigInt::to_i64` succeeds exactly on
the `i64` range; a float truncates toward zero (`f as i64`; saturation
at the `i64` bounds as in Rust). -/
def asIntCast : Value → Option Int
  | Value.Int i =>
    if -(2 ^ 63) ≤ i ∧ i < 2 ^ 63 then some i else none
  | Value.Float q =>
    some (max (-(2 ^ 63)) (min (2 ^ 63 - 1) (truncToZero q)))
  | _ => none

/-- Coercion `Value::as_float_cast`: floats pass through, integers widen
(`BigInt::to_f64`, exact in the rational model). -/
def asFloatCast : Value → Option ℚ
  | Value.Float q => some q
  | Value.Int i => some (i : ℚ)
  | _ => none

/-! ## Evaluator state (`calc.rs` `Calc` and `CalcState`) -/

/-- Typed error kinds.  Modelled from the spec: `errors.rs` (generated by
`error_chain`) is not under `src/`; §7 of the design document lists the
kinds, which the code under `src/` constructs by name. -/
inductive Err where
  | DivisionByZero
  | MissingOperand
  | WrongTypeOperand (v : Value) (expected : String)
  | BlockNoResult
  | WordParseError (w : Word)
  | NumericOverflow
  | UnknownWord (w : Word)

mutual
/-- The evaluator (`calc.rs` `Calc`): scope, value stack (head = top),
and the pending-frame stack. -/
inductive Calc : Type where
  | mk (dict : Inner) (data : List Value) (state : StateStack) : Calc

/-- The pending-frame stack `Vec<CalcState>` fused with its frames: the
top frame is the outermost constructor (`nil` is the idle evaluator). -/
inductive StateStack : Type where
  | nil : StateStack
  | reading (block : List Word) (level : Nat) (rest : StateStack) : StateStack
  | collecting (sub : Calc) (rest : StateStack) : StateStack
end

/-- Scope of an evaluator. -/
def Calc.dict : Calc → Inner
  | .mk d _ _ => d

/-- Value stack of an evaluator (head = top). -/
def Calc.data : Calc → List Value
  | .mk _ xs _ => xs

/-- Frame stack of an evaluator. -/
def Calc.state : Calc → StateStack
  | .mk _ _ st => st

/-- Push onto the value stack (`self.data.push(v)`). -/
def pushData : Calc → Value → Calc
  | .mk d xs st, v => .mk d (v :: xs) st

/-- A fresh sub-evaluator (`Calc::sub_calc`): empty stack, empty frame
stack, scope a child of the caller's. -/
def subCalc (c : Calc) : Calc :=
  Calc.mk (Inner.child [] c.dict) [] StateStack.nil

/-- The fresh top-level evaluator (`Calc::new`). -/
def freshCalc : Calc :=
  Calc.mk defaultDict [] StateStack.nil

/-! ## Operand-popping helpers (`calc.rs` lines 384-430).  Each returns
the result together with the evaluator state after the pops: popping is
non-transactional, so on a type error the operand is already gone. -/

/-- Helper `get_operand`: pop the top value or fail. -/
def getOperand (c : Calc) : Except Err Value × Calc :=
  match c with
  | .mk _ [] _ => (Except.error Err.MissingOperand, c)
  | .mk d (v :: rest) st => (Except.ok v, .mk d rest st)

/-- Helper `get_int` (via `as_int`). -/
def getInt (c : Calc) : Except Err Int × Calc :=
  match getOperand c with
  | (Except.error e, c') => (Except.error e, c')
  | (Except.ok v, c') =>
    match asInt v with
    | some i => (Except.ok i, c')
    | none => (Except.error (Err.WrongTypeOperand v "int"), c')

/-- Helper `get_int_cast` (via `as_int_cast`). -/
def getIntCast (c : Calc) : Except Err Int × Calc :=
  match getOperand c with
  | (Except.error e, c') => (Except.error e, c')
  | (Except.ok v, c') =>
    match asIntCast v with
    | some i => (Except.ok i, c')
    | none => (Except.error (Err.WrongTypeOperand v "int or float"), c')

/-- Helper `get_float_cast` (via `as_float_cast`). -/
def getFloatCast (c : Calc) : Except Err ℚ × Calc :=
  match getOperand c with
  | (Except.error e, c') => (Except.error e, c')
  | (Except.ok v, c') =>
    match asFloatCast v with
    | some q => (Except.ok q, c')
    | none => (Except.error (Err.WrongTypeOperand v "int or float"), c')

/-- Helper `get_block` (via `into_block`). -/
def getBlock (c : Calc) : Except Err (List Word) × Calc :=
  match getOperand c with
  | (Except.error e, c') => (Except.error e, c')
  | (Except.ok v, c') =>
    match v with
    | Value.Block b => (Except.ok b, c')
    | v' => (Except.error (Err.WrongTypeOperand v' "block"), c')

/-- Helper `get_vector` (via `into_vector`). -/
def getVector (c : Calc) : Except Err (List Value) × Calc :=
  match getOperand c with
  | (Except.error e, c') => (Except.error e, c')
  | (Except.ok v, c') =>
    match v with
    | Value.Vector vs => (Except.ok vs, c')
    | v' => (Except.error (Err.WrongTypeOperand v' "vector"), c')

/-- Helper `get_word` (via `into_word`). -/
def getWord (c : Calc) : Except Err Word × Calc :=
  match getOperand c with
  | (Except.error e, c') => (Except.error e, c')
  | (Except.ok v, c') =>
    match v with
    | Value.QuotedWord w => (Except.ok w, c')
    | v' => (Except.error (Err.WrongTypeOperand v' "quoted word"), c')

/-- Helper `perform_binop` (`calc.rs` lines 441-460): pop `y` then `x`;
int⊕int stays int (`g`), anything involving a float widens to float
(`f`), a non-numeric operand is a type error. -/
def performBinop (c : Calc) (f : ℚ → ℚ → ℚ) (g : Int → Int → Int) :
    Calc × Option Err :=
  match getOperand c with
  | (Except.error e, c1) => (c1, some e)
  | (Except.ok y, c1) =>
    match getOperand c1 with
    | (Except.error e, c2) => (c2, some e)
    | (Except.ok x, c2) =>
      match x, y with
      | Value.Int a, Value.Int b => (pushData c2 (Value.Int (g a b)), none)
      | Value.Float a, Value.Float b => (pushData c2 (Value.Float (f a b)), none)
      | Value.Int a, Value.Float b => (pushData c2 (Value.Float (f (a : ℚ) b)), none)
      | Value.Float a, Value.Int b => (pushData c2 (Value.Float (f a (b : ℚ))), none)
      | Value.Int _, y' => (c2, some (Err.WrongTypeOperand y' "int or float"))
      | Value.Float _, y' => (c2, some (Err.WrongTypeOperand y' "int or float"))
      | x', _ => (c2, some (Err.WrongTypeOperand x' "int or float"))

/-- The block-opening delimiter token. -/
def openBrace : Word := "\x7b"

/-- The block-closing delimiter token. -/
def closeBrace : Word := "\x7d"

/-- Quote-prefix test (`word.starts_with(',')`). -/
def startsWithComma (w : Word) : Bool :=
  w.data.head? == some ','

/-- The word with its first character removed (`word[1..]`). -/
def dropFirstChar (w : Word) : Word :=
  String.mk w.data.tail

/-- Run outcome: `none` is fuel exhaustion; otherwise the evaluator
state reached, with the error that aborted the run, if any. -/
abbrev RunRes := Option (Calc × Option Err)

/-- Replace the value stack of an evaluator. -/
def setData : Calc → List Value → Calc
  | .mk d _ st, xs => .mk d xs st

mutual

/-- One token step (`calc.rs` `Calc::run_one`): dispatch on the top
pending frame (reading, collecting, or idle).  Consumes one unit of
fuel; all other run functions only pass fuel through, so a run with a
given fuel bounds the token-dispatch depth, not the token count of a
single list. -/
def runOne (fuel : Nat) (c : Calc) (w : Word) : RunRes :=
  match fuel with
  | 0 => none
  | f + 1 =>
    match c with
    | .mk d data st =>
      match st with
      | StateStack.reading block level rest =>
        if w = closeBrace ∧ level = 0 then
          some (.mk d (Value.Block block :: data) rest, none)
        else
          let newLevel :=
            if w = closeBrace then level - 1
            else if w = openBrace then level + 1
            else level
          some (.mk d data (StateStack.reading (block ++ [w]) newLevel rest), none)
      | StateStack.collecting sub rest =>
        if w = "]" then
          some (.mk d (Value.Vector sub.data.reverse :: data) rest, none)
        else
          match Inner.lookup d f w with
          | none => none
          | some opt =>
            match opt with
            | some (Operation.Builtin BuiltinWord.Arg) =>
              match rest with
              | StateStack.collecting parent rest2 =>
                match parent.data with
                | [] => some (.mk d data rest2, some Err.MissingOperand)
                | v :: pd =>
                  some (.mk d data
                    (StateStack.collecting (pushData sub v)
                      (StateStack.collecting (setData parent pd) rest2)), none)
              | StateStack.reading blk lvl rest2 =>
                match data with
                | [] => some (.mk d [] rest2, some Err.MissingOperand)
                | v :: data' =>
                  some (.mk d data'
                    (StateStack.collecting (pushData sub v)
                      (StateStack.reading blk lvl rest2)), none)
              | StateStack.nil =>
                match data with
                | [] => some (.mk d [] StateStack.nil, some Err.MissingOperand)
                | v :: data' =>
                  some (.mk d data'
                    (StateStack.collecting (pushData sub v) StateStack.nil), none)
            | _ =>
              match runOne f sub w with
              | none => none
              | some (_, some e) => some (.mk d data rest, some e)
              | some (sub', none) =>
                some (.mk d data (StateStack.collecting sub' rest), none)
      | StateStack.nil =>
        if startsWithComma w then
          some (.mk d (Value.QuotedWord (dropFirstChar w) :: data) StateStack.nil, none)
        else if w = openBrace then
          some (.mk d data (StateStack.reading [] 0 StateStack.nil), none)
        else if w = "[" then
          some (.mk d data
            (StateStack.collecting (Calc.mk (Inner.child [] d) [] StateStack.nil)
              StateStack.nil), none)
        else
          match Inner.lookup d f w with
          | none => none
          | some (some (Operation.Builtin b)) => runBuiltin f (.mk d data StateStack.nil) b
          | some (some (Operation.Block blk)) => runTokens f (.mk d data StateStack.nil) blk
          | some none =>
            match Value.parse w with
            | some v => some (.mk d (v :: data) StateStack.nil, none)
            | none => some (.mk d data StateStack.nil, some (Err.WordParseError w))
termination_by (fuel, 0, 0)

/-- Token-list run (`calc.rs` `Calc::run`): feed each word to `run_one`,
aborting at the first error. -/
def runTokens (fuel : Nat) (c : Calc) (ws : List Word) : RunRes :=
  match ws with
  | [] => some (c, none)
  | w :: rest =>
    match runOne fuel c w with
    | none => none
    | some (c', some e) => some (c', some e)
    | some (c', none) => runTokens fuel c' rest
termination_by (fuel, 1, ws.length)

/-- Loop of the `Map` arm: one fresh sub-evaluator per element, seeded
with the element; an empty sub-stack afterwards is the
block-produced-no-result error, otherwise the top is kept and the rest
of the sub-stack discarded. -/
def mapLoop (fuel : Nat) (d : Inner) (blk : List Word) (vs : List Value) :
    Option (Except Err (List Value)) :=
  match vs with
  | [] => some (Except.ok [])
  | v :: rest =>
    match runTokens fuel (Calc.mk (Inner.child [] d) [v] StateStack.nil) blk with
    | none => none
    | some (_, some e) => some (Except.error e)
    | some (sub, none) =>
      match sub.data with
      | [] => some (Except.error Err.BlockNoResult)
      | r :: _ =>
        match mapLoop fuel d blk rest with
        | none => none
        | some (Except.error e) => some (Except.error e)
        | some (Except.ok rs) => some (Except.ok (r :: rs))
termination_by (fuel, 2, vs.length)

/-- Loop of the `Filter` arm: like `mapLoop`, but the sub-evaluator's
top value decides retention of the original element — a nonzero integer
or `true` keeps it, anything else (floats included) drops it. -/
def filterLoop (fuel : Nat) (d : Inner) (blk : List Word) (vs : List Value) :
    Option (Except Err (List Value)) :=
  match vs with
  | [] => some (Except.ok [])
  | v :: rest =>
    match runTokens fuel (Calc.mk (Inner.child [] d) [v] StateStack.nil) blk with
    | none => none
    | some (_, some e) => some (Except.error e)
    | some (sub, none) =>
      match sub.data with
      | [] => some (Except.error Err.BlockNoResult)
      | r :: _ =>
        match filterLoop fuel d blk rest with
        | none => none
        | some (Except.error e) => some (Except.error e)
        | some (Except.ok rs) =>
          match r with
          | Value.Int x => if x = 0 then some (Except.ok rs) else some (Except.ok (v :: rs))
          | Value.Bool true => some (Except.ok (v :: rs))
          | _ => some (Except.ok rs)
termination_by (fuel, 2, vs.length)

/-- Loop of the `Fold`/`Fold1` arms: one persistent sub-evaluator; each
element is pushed and the block run against the accumulated stack. -/
def foldLoop (fuel : Nat) (sub : Calc) (blk : List Word) (vs : List Value) : RunRes :=
  match vs with
  | [] => some (sub, none)
  | v :: rest =>
    match runTokens fuel (pushData sub v) blk with
    | none => none
    | some (sub', some e) => some (sub', some e)
    | some (sub', none) => foldLoop fuel sub' blk rest
termination_by (fuel, 2, vs.length)

/-- Loop of the `Repeat` arm: run the block `n` times directly against
the caller's own stack. -/
def repeatLoop (fuel : Nat) (c : Calc) (blk : List Word) (n : Nat) : RunRes :=
  match n with
  | 0 => some (c, none)
  | k + 1 =>
    match runTokens fuel c blk with
    | none => none
    | some (c', some e) => some (c', some e)
    | some (c', none) => repeatLoop fuel c' blk k
termination_by (fuel, 2, n)

/-- Branch execution of the `If` arm (`builtins.rs` `buildin_if`): a
block runs inline against the caller's stack, any other value is pushed. -/
def runBranch (fuel : Nat) (c : Calc) (v : Value) : RunRes :=
  match v with
  | Value.Block blk => runTokens fuel c blk
  | v' => some (pushData c v', none)
termination_by (fuel, 2, 0)

/-- Builtin dispatch (`calc.rs` `Calc::run_builtin`, with the `Fold1`
and `If` arms from `builtins.rs`).  `Stdin` reads external input; it is
modelled with empty input, and the `println` side effects of `Print`
and `Dump` are dropped (their stack effects are kept). -/
def runBuiltin (fuel : Nat) (c : Calc) (b : BuiltinWord) : RunRes :=
  match b with
  | BuiltinWord.Add => some (performBinop c (fun x y => x + y) (fun x y => x + y))
  | BuiltinWord.Sub => some (performBinop c (fun x y => x - y) (fun x y => x - y))
  | BuiltinWord.Mul => some (performBinop c (fun x y => x * y) (fun x y => x * y))
  | BuiltinWord.Div =>
    match getFloatCast c with
    | (Except.error e, c1) => some (c1, some e)
    | (Except.ok y, c1) =>
      match getFloatCast c1 with
      | (Except.error e, c2) => some (c2, some e)
      | (Except.ok x, c2) =>
        if y = 0 then some (c2, some Err.DivisionByZero)
        else some (pushData c2 (Value.Float (x / y)), none)
  | BuiltinWord.Print =>
    match getOperand c with
    | (Except.error e, c1) => some (c1, some e)
    | (Except.ok _, c1) => some (c1, none)
  | BuiltinWord.Pop =>
    match c with
    | .mk d [] st => some (Calc.mk d [] st, none)
    | .mk d (_ :: xs) st => some (Calc.mk d xs st, none)
  | BuiltinWord.Duplicate =>
    match getOperand c with
    | (Except.error e, c1) => some (c1, some e)
    | (Except.ok v, c1) => some (pushData (pushData c1 v) v, none)
  | BuiltinWord.Stdin => some (pushData c (Value.Vector []), none)
  | BuiltinWord.Dump => some (c, none)
  | BuiltinWord.Map =>
    match getBlock c with
    | (Except.error e, c1) => some (c1, some e)
    | (Except.ok blk, c1) =>
      match getVector c1 with
      | (Except.error e, c2) => some (c2, some e)
      | (Except.ok vs, c2) =>
        match mapLoop fuel c2.dict blk vs with
        | none => none
        | some (Except.error e) => some (c2, some e)
        | some (Except.ok rs) => some (pushData c2 (Value.Vector rs), none)
  | BuiltinWord.Fold =>
    match getBlock c with
    | (Except.error e, c1) => some (c1, some e)
    | (Except.ok blk, c1) =>
      match getOperand c1 with
      | (Except.error e, c2) => some (c2, some e)
      | (Except.ok init, c2) =>
        match getVector c2 with
        | (Except.error e, c3) => some (c3, some e)
        | (Except.ok vs, c3) =>
          match foldLoop fuel (Calc.mk (Inner.child [] c3.dict) [init] StateStack.nil) blk vs with
          | none => none
          | some (_, some e) => some (c3, some e)
          | some (sub', none) =>
            match sub'.data with
            | [] => some (c3, some Err.BlockNoResult)
            | r :: _ => some (pushData c3 r, none)
  | BuiltinWord.Fold1 =>
    match getBlock c with
    | (Except.error e, c1) => some (c1, some e)
    | (Except.ok blk, c1) =>
      match getVector c1 with
      | (Except.error e, c2) => some (c2, some e)
      | (Except.ok vs, c2) =>
        match vs with
        | [] => some (c2, none)
        | init :: restVals =>
          match foldLoop fuel (Calc.mk (Inner.child [] c2.dict) [init] StateStack.nil) blk restVals with
          | none => none
          | some (_, some e) => some (c2, some e)
          | some (sub', none) =>
            match sub'.data with
            | [] => some (c2, some Err.BlockNoResult)
            | r :: _ => some (pushData c2 r, none)
  | BuiltinWord.Filter =>
    match getBlock c with
    | (Except.error e, c1) => some (c1, some e)
    | (Except.ok blk, c1) =>
      match getVector c1 with
      | (Except.error e, c2) => some (c2, some e)
      | (Except.ok vs, c2) =>
        match filterLoop fuel c2.dict blk vs with
        | none => none
        | some (Except.error e) => some (c2, some e)
        | some (Except.ok rs) => some (pushData c2 (Value.Vector rs), none)
  | BuiltinWord.Length =>
    match getOperand c with
    | (Except.error e, c1) => some (c1, some e)
    | (Except.ok v, c1) =>
      match v with
      | Value.Vector vs => some (pushData c1 (Value.Int vs.length), none)
      | v' => some (c1, some (Err.WrongTypeOperand v' "vector"))
  | BuiltinWord.Swap =>
    match getOperand c with
    | (Except.error e, c1) => some (c1, some e)
    | (Except.ok a, c1) =>
      match getOperand c1 with
      | (Except.error e, c2) => some (c2, some e)
      | (Except.ok b, c2) => some (pushData (pushData c2 a) b, none)
  | BuiltinWord.Over =>
    match getOperand c with
    | (Except.error e, c1) => some (c1, some e)
    | (Except.ok a, c1) =>
      match getOperand c1 with
      | (Except.error e, c2) => some (c2, some e)
      | (Except.ok b, c2) => some (pushData (pushData (pushData c2 b) a) b, none)
  | BuiltinWord.Repeat =>
    match getIntCast c with
    | (Except.error e, c1) => some (c1, some e)
    | (Except.ok n, c1) =>
      match getBlock c1 with
      | (Except.error e, c2) => some (c2, some e)
      | (Except.ok blk, c2) => repeatLoop fuel c2 blk n.toNat
  | BuiltinWord.Roll3 =>
    match getOperand c with
    | (Except.error e, c1) => some (c1, some e)
    | (Except.ok a, c1) =>
      match getOperand c1 with
      | (Except.error e, c2) => some (c2, some e)
      | (Except.ok b, c2) =>
        match getOperand c2 with
        | (Except.error e, c3) => some (c3, some e)
        | (Except.ok cc, c3) =>
          some (pushData (pushData (pushData c3 b) cc) a, none)
  | BuiltinWord.Def =>
    match getBlock c with
    | (Except.error e, c1) => some (c1, some e)
    | (Except.ok blk, c1) =>
      match getWord c1 with
      | (Except.error e, c2) => some (c2, some e)
      | (Except.ok name, c2) =>
        some (Calc.mk (c2.dict.insertLocal name (Entry.Op (Operation.Block blk)))
          c2.data c2.state, none)
  | BuiltinWord.Alias =>
    match getWord c with
    | (Except.error e, c1) => some (c1, some e)
    | (Except.ok target, c1) =>
      match getWord c1 with
      | (Except.error e, c2) => some (c2, some e)
      | (Except.ok name, c2) =>
        some (Calc.mk (c2.dict.insertLocal name (Entry.Alias target))
          c2.data c2.state, none)
  | BuiltinWord.Apply =>
    match getOperand c with
    | (Except.error e, c1) => some (c1, some e)
    | (Except.ok v, c1) =>
      match v with
      | Value.QuotedWord w => runOne fuel c1 w
      | Value.Block blk => runTokens fuel c1 blk
      | _ => some (c1, none)
  | BuiltinWord.Arg => some (c, none)
  | BuiltinWord.Min =>
    match getInt c with
    | (Except.error e, c1) => some (c1, some e)
    | (Except.ok a, c1) =>
      match getInt c1 with
      | (Except.error e, c2) => some (c2, some e)
      | (Except.ok b, c2) => some (pushData c2 (Value.Int (min a b)), none)
  | BuiltinWord.Max =>
    match getInt c with
    | (Except.error e, c1) => some (c1, some e)
    | (Except.ok a, c1) =>
      match getInt c1 with
      | (Except.error e, c2) => some (c2, some e)
      | (Except.ok b, c2) => some (pushData c2 (Value.Int (max a b)), none)
  | BuiltinWord.Cmp =>
    match getInt c with
    | (Except.error e, c1) => some (c1, some e)
    | (Except.ok a, c1) =>
      match getInt c1 with
      | (Except.error e, c2) => some (c2, some e)
      | (Except.ok b, c2) =>
        some (pushData c2 (Value.Int (if b < a then -1 else if b = a then 0 else 1)), none)
  | BuiltinWord.If =>
    match getOperand c with
    | (Except.error e, c1) => some (c1, some e)
    | (Except.ok elseB, c1) =>
      match getOperand c1 with
      | (Except.error e, c2) => some (c2, some e)
      | (Except.ok thenB, c2) =>
        match getInt c2 with
        | (Except.error e, c3) => some (c3, some e)
        | (Except.ok test, c3) =>
          if test ≠ 0 then runBranch fuel c3 thenB else runBranch fuel c3 elseB
termination_by (fuel, 3, 0)

end

/-! ## Specification-side definitions used by the theorems -/

/-- The character of a decimal digit. -/
def digitChar (d : Nat) : Char := Char.ofNat (48 + d)

/-- Decimal digit string of a natural number, most significant first. -/
def natDigits (n : Nat) : List Char :=
  if _h : n < 10 then [digitChar n]
  else natDigits (n / 10) ++ [digitChar (n % 10)]
termination_by n
decreasing_by exact Nat.div_lt_self (by omega) (by omega)

/-- Decimal token of an integer, as the external tokenizer would deliver
it: an optional minus sign followed by the digits of the absolute value. -/
def intToken (a : Int) : Word :=
  String.mk (if a < 0 then '-' :: natDigits a.natAbs else natDigits a.natAbs)

/-- One element's sub-evaluator run, shared by the `map`, `filter` and
vector-collection protocols: a fresh child-scoped evaluator holding just
the element, run over the block's tokens. -/
def elemRun (fuel : Nat) (d : Inner) (blk : List Word) (v : Value) : RunRes :=
  runTokens fuel (Calc.mk (Inner.child [] d) [v] StateStack.nil) blk

/-- The retention rule of `filter`: a nonzero integer or `true` counts
as true; everything else — floats of any value included — does not. -/
def truthy : Value → Bool
  | Value.Int x => decide (x ≠ 0)
  | Value.Bool b => b
  | _ => false

/-- Keep the elements whose flag is `true`, in order. -/
def keepFlags : List Value → List Bool → List Value
  | [], _ => []
  | _, [] => []
  | v :: vs, b :: bs => if b then v :: keepFlags vs bs else keepFlags vs bs

/-! ## C3 — alias chains resolve transitively across nested scopes -/

/-- C3.  Dictionary lookup resolves alias chains transitively across
nested scopes.  First conjunct: if a child scope binds `a` as an alias
to `t`, `t` has no local entry in the child or in the parent, and the
grandparent resolves `t` to an operation, then looking `a` up in the
child returns that operation.  Second conjunct: local chasing repeats —
with a two-link local chain `a → b → t`, the last unresolved name `t` is
the one delegated, and the grandparent's operation is still returned
(one extra unit of chase fuel for the extra link). -/
theorem lookup_alias_transitive :
    (∀ (fuel : Nat) (cm pm : List (Word × Entry)) (g : Inner) (a t : Word) (o : Operation),
      lookupAssoc cm a = some (Entry.Alias t) →
      lookupAssoc cm t = none →
      lookupAssoc pm t = none →
      Inner.lookup g fuel t = some (some o) →
      Inner.lookup (Inner.child cm (Inner.child pm g)) fuel a = some (some o))
    ∧ (∀ (fuel : Nat) (cm pm : List (Word × Entry)) (g : Inner) (a b t : Word) (o : Operation),
      lookupAssoc cm a = some (Entry.Alias b) →
      lookupAssoc cm b = some (Entry.Alias t) →
      lookupAssoc cm t = none →
      lookupAssoc pm t = none →
      Inner.lookup g (fuel + 1) t = some (some o) →
      Inner.lookup (Inner.child cm (Inner.child pm g)) (fuel + 1) a = some (some o)) := by
  constructor
  · intro fuel cm pm g a t o h1 h2 h3 h4
    simp [Inner.lookup, chaseLocal, h1, h2, h3, h4]
  · intro fuel cm pm g a b t o h1 h2 h3 h4 h5
    simp [Inner.lookup, chaseLocal, h1, h2, h3, h4, h5]

/-- Witness for C3: a child aliasing `plus` to `add`, which only the
grandparent root scope binds. -/
theorem lookup_alias_transitive_witness :
    Inner.lookup
      (Inner.child [("plus", Entry.Alias "add")]
        (Inner.child []
          (Inner.root [("add", Entry.Op (Operation.Builtin BuiltinWord.Add))])))
      1 "plus" = some (some (Operation.Builtin BuiltinWord.Add)) :=
  lookup_alias_transitive.1 1 [("plus", Entry.Alias "add")] []
    (Inner.root [("add", Entry.Op (Operation.Builtin BuiltinWord.Add))])
    "plus" "add" (Operation.Builtin BuiltinWord.Add) rfl rfl rfl rfl

/-! ## C1 — what `def` binds -/

/-- C1 counterexample.  The claim says `def` binds the popped value "for
every value type (not only Blocks)".  In `calc.rs` the `Def` arm pops
via `get_block`, so a non-Block value — here `Int 5` — is rejected with
a wrong-type error and nothing is bound. -/
theorem def_rejects_non_block :
    runBuiltin 1 (Calc.mk defaultDict [Value.Int 5, Value.QuotedWord "x"] StateStack.nil)
        BuiltinWord.Def
      = some (Calc.mk defaultDict [Value.QuotedWord "x"] StateStack.nil,
          some (Err.WrongTypeOperand (Value.Int 5) "block")) := by
  simp [runBuiltin, getBlock, getOperand]

/-- C1 amended.  `def` pops a Block and then a quoted-word name, binding
the name to that block in the current scope; inserting over an existing
binding of the same name overwrites it; and a non-Block value is
rejected with a wrong-type "block" error (the popped operand is lost). -/
theorem def_binds_block_operations :
    (∀ (fuel : Nat) (d : Inner) (blk : List Word) (nm : Word)
        (rest : List Value) (st : StateStack),
      runBuiltin fuel (Calc.mk d (Value.Block blk :: Value.QuotedWord nm :: rest) st)
          BuiltinWord.Def
        = some (Calc.mk (d.insertLocal nm (Entry.Op (Operation.Block blk))) rest st, none))
    ∧ (∀ (fuel : Nat) (d : Inner) (nm : Word) (e1 : Entry) (o : Operation),
      Inner.lookup ((d.insertLocal nm e1).insertLocal nm (Entry.Op o)) fuel nm
        = some (some o))
    ∧ (∀ (fuel : Nat) (d : Inner) (i : Int) (nm : Word)
        (rest : List Value) (st : StateStack),
      runBuiltin fuel (Calc.mk d (Value.Int i :: Value.QuotedWord nm :: rest) st)
          BuiltinWord.Def
        = some (Calc.mk d (Value.QuotedWord nm :: rest) st,
            some (Err.WrongTypeOperand (Value.Int i) "block"))) := by
  refine ⟨?_, ?_, ?_⟩
  · intro fuel d blk nm rest st
    cases d <;> simp [runBuiltin, getBlock, getWord, getOperand, Inner.insertLocal,
      Calc.dict, Calc.data, Calc.state]
  · intro fuel d nm e1 o
    cases d <;> simp [Inner.insertLocal, Inner.lookup, chaseLocal, lookupAssoc]
  · intro fuel d i nm rest st
    simp [runBuiltin, getBlock, getOperand]

/-! ## C2 — `alias` does not validate its target -/

/-- C2 counterexample.  The claim says an `alias` whose target does not
currently resolve fails with a fatal unknown-word error at definition
time.  In `calc.rs` the `Alias` arm just inserts: with the target
`undefinedword` resolving to nothing in the default dictionary, the
builtin still succeeds and binds the alias, raising no error. -/
theorem alias_accepts_unresolved_target :
    Inner.lookup defaultDict 0 "undefinedword" = some none
    ∧ runBuiltin 1
        (Calc.mk defaultDict
          [Value.QuotedWord "undefinedword", Value.QuotedWord "plus"] StateStack.nil)
        BuiltinWord.Alias
      = some (Calc.mk (defaultDict.insertLocal "plus" (Entry.Alias "undefinedword"))
          [] StateStack.nil, none) := by
  constructor
  · rfl
  · simp [runBuiltin, getWord, getOperand, Calc.dict, Calc.data, Calc.state,
      defaultDict, Inner.insertLocal]

/-- C2 amended.  `alias` pops a target quoted-word and then a new name
and binds the new name as an alias to the target unconditionally — no
definition-time resolution check is performed, whether or not the target
resolves; resolution only happens at lookup time. -/
theorem alias_binds_unconditionally :
    ∀ (fuel : Nat) (d : Inner) (target nm : Word)
      (rest : List Value) (st : StateStack),
      runBuiltin fuel (Calc.mk d (Value.QuotedWord target :: Value.QuotedWord nm :: rest) st)
          BuiltinWord.Alias
        = some (Calc.mk (d.insertLocal nm (Entry.Alias target)) rest st, none) := by
  intro fuel d target nm rest st
  cases d <;> simp [runBuiltin, getWord, getOperand, Inner.insertLocal,
    Calc.dict, Calc.data, Calc.state]

/-! ## C6 — `fold1` on the empty vector -/

/-- C6.  With the popped vector empty, `fold1` pushes nothing and raises
no error: the block and the empty vector are consumed and the rest of
the stack, the frame stack and the scope are untouched. -/
theorem fold1_empty_vector_noop :
    ∀ (fuel : Nat) (d : Inner) (blk : List Word)
      (rest : List Value) (st : StateStack),
      runBuiltin fuel (Calc.mk d (Value.Block blk :: Value.Vector [] :: rest) st)
          BuiltinWord.Fold1
        = some (Calc.mk d rest st, none) := by
  intro fuel d blk rest st
  simp [runBuiltin, getBlock, getVector, getOperand]

/-! ## C10 — `pop` on an empty stack -/

/-- C10.  Dispatching `pop` on an evaluator with an empty value stack
succeeds silently and leaves the stack empty (`Vec::pop` on an empty
vector is a no-op and the arm returns `Ok`), while a builtin that
consumes an operand — `dup` here — fails with the missing-operand error
on the same evaluator. -/
theorem pop_empty_stack_silent :
    ∀ f : Nat,
      runOne (f + 1) (Calc.mk defaultDict [] StateStack.nil) "pop"
        = some (Calc.mk defaultDict [] StateStack.nil, none)
      ∧ runOne (f + 1) (Calc.mk defaultDict [] StateStack.nil) "dup"
        = some (Calc.mk defaultDict [] StateStack.nil, some Err.MissingOperand) := by
  intro f
  constructor
  · simp [runOne, runBuiltin, Inner.lookup, chaseLocal, lookupAssoc,
      defaultDict, defaultInserts, startsWithComma, openBrace, closeBrace]
  · simp [runOne, runBuiltin, getOperand, Inner.lookup, chaseLocal, lookupAssoc,
      defaultDict, defaultInserts, startsWithComma, openBrace, closeBrace]

/-! ## C7 — `div` casts to float and tests the divisor for zero -/

/-- C7.  First conjunct: on any two operands that cast to float (the
divisor `y` was pushed last), `div` raises division-by-zero exactly when
the divisor casts to `0.0` — both operands are popped either way, and no
quotient is pushed in the error case — and otherwise pushes the float
quotient.  Second conjunct: the scenario — running `10 0 div` on a fresh
evaluator fails with division-by-zero and leaves no value on the stack. -/
theorem div_zero_divisor :
    (∀ (fuel : Nat) (d : Inner) (x y : Value) (rest : List Value) (st : StateStack)
        (fx fy : ℚ),
      asFloatCast x = some fx →
      asFloatCast y = some fy →
      runBuiltin fuel (Calc.mk d (y :: x :: rest) st) BuiltinWord.Div
        = if fy = 0 then some (Calc.mk d rest st, some Err.DivisionByZero)
          else some (Calc.mk d (Value.Float (fx / fy) :: rest) st, none))
    ∧ runTokens 9 freshCalc ["10", "0", "div"]
        = some (Calc.mk defaultDict [] StateStack.nil, some Err.DivisionByZero) := by
  constructor
  · intro fuel d x y rest st fx fy hx hy
    simp [runBuiltin, getFloatCast, getOperand, hx, hy, pushData]
  · simp [runTokens, runOne, runBuiltin, Inner.lookup, chaseLocal, lookupAssoc,
      defaultDict, defaultInserts, Value.parse, trimChars, parseIntChars,
      digitsToNat, digitsToNatAux, digitVal, getFloatCast, getOperand, asFloatCast,
      pushData, startsWithComma, wsChar, openBrace, closeBrace, freshCalc]

/-- Witness for C7: both cast hypotheses discharged at `10` and `0`. -/
theorem div_zero_divisor_witness :
    runBuiltin 1 (Calc.mk defaultDict [Value.Int 0, Value.Int 10] StateStack.nil)
        BuiltinWord.Div
      = some (Calc.mk defaultDict [] StateStack.nil, some Err.DivisionByZero) := by
  have h := div_zero_divisor.1 1 defaultDict (Value.Int 10) (Value.Int 0) [] StateStack.nil
    10 0 rfl rfl
  simpa using h

/-! ## C8 — integer addition through the full token pipeline.

The lemmas below establish that the decimal token of an integer parses
back to that integer, is no dictionary key, and is none of the special
tokens, so that `run_one` pushes exactly the integer literal. -/

/-- Digit characters read back as their digit. -/
theorem digitVal_digitChar (d : Nat) (h : d < 10) : digitVal (digitChar d) = some d := by
  interval_cases d <;> rfl

/-- Code point of a digit character. -/
theorem digitChar_toNat (d : Nat) (h : d < 10) : (digitChar d).toNat = 48 + d := by
  interval_cases d <;> rfl

/-- A decimal digit string is never empty. -/
theorem natDigits_ne_nil (n : Nat) : natDigits n ≠ [] := by
  rw [natDigits]
  split <;> simp

/-- Every character of a decimal digit string is a digit. -/
theorem natDigits_bounds (n : Nat) :
    ∀ c ∈ natDigits n, 48 ≤ c.toNat ∧ c.toNat ≤ 57 := by
  induction n using Nat.strong_induction_on with
  | _ n ih =>
    rw [natDigits]
    split
    · next h =>
      intro c hc
      simp only [List.mem_singleton] at hc
      subst hc
      rw [digitChar_toNat n h]
      omega
    · next h =>
      intro c hc
      rw [List.mem_append] at hc
      rcases hc with hc | hc
      · exact ih (n / 10) (Nat.div_lt_self (by omega) (by omega)) c hc
      · simp only [List.mem_singleton] at hc
        subst hc
        rw [digitChar_toNat (n % 10) (Nat.mod_lt n (by omega))]
        omega

/-- The accumulating read splits over an append. -/
theorem digitsToNatAux_append (l1 l2 : List Char) :
    ∀ acc, digitsToNatAux (l1 ++ l2) acc
      = (digitsToNatAux l1 acc).bind (fun m => digitsToNatAux l2 m) := by
  induction l1 with
  | nil => intro acc; simp [digitsToNatAux]
  | cons c l ih =>
    intro acc
    simp only [List.cons_append, digitsToNatAux]
    cases h : digitVal c <;> simp [h, ih]

/-- Reading the decimal digit string of `n` yields `n`. -/
theorem digitsToNat_natDigits (n : Nat) : digitsToNat (natDigits n) = some n := by
  induction n using Nat.strong_induction_on with
  | _ n ih =>
    rw [natDigits]
    split
    · next h =>
      simp [digitsToNat, digitsToNatAux, digitVal_digitChar n h]
    · next h =>
      cases hD : natDigits (n / 10) with
      | nil => exact absurd hD (natDigits_ne_nil _)
      | cons c l =>
        have hdiv : digitsToNatAux (c :: l) 0 = some (n / 10) := by
          have hi := ih (n / 10) (Nat.div_lt_self (by omega) (by omega))
          rw [hD] at hi
          exact hi
        have hstep : digitsToNat ((c :: l) ++ [digitChar (n % 10)])
            = digitsToNatAux ((c :: l) ++ [digitChar (n % 10)]) 0 := rfl
        rw [hstep, digitsToNatAux_append, hdiv]
        simp [digitsToNatAux, digitVal_digitChar (n % 10) (Nat.mod_lt n (by omega))]
        omega

/-- The token of an integer starts with a minus sign or a digit. -/
theorem intToken_head (a : Int) :
    ∃ c l, (intToken a).data = c :: l
      ∧ (c.toNat = 45 ∨ (48 ≤ c.toNat ∧ c.toNat ≤ 57)) := by
  unfold intToken
  split
  · exact ⟨'-', natDigits a.natAbs, rfl, Or.inl (by decide)⟩
  · cases hD : natDigits a.natAbs with
    | nil => exact absurd hD (natDigits_ne_nil _)
    | cons c l =>
      refine ⟨c, l, rfl, Or.inr ?_⟩
      refine natDigits_bounds a.natAbs c ?_
      rw [hD]
      exact List.mem_cons_self c l

/-- `dropWhile` is the identity when no element satisfies the predicate. -/
theorem dropWhile_of_all_false {p : Char → Bool} :
    ∀ l : List Char, (∀ c ∈ l, p c = false) → l.dropWhile p = l := by
  intro l h
  cases l with
  | nil => rfl
  | cons c rest => simp [List.dropWhile_cons, h c (List.mem_cons_self c rest)]

/-- Trimming a string with no whitespace characters is the identity. -/
theorem trimChars_of_no_ws (l : List Char) (h : ∀ c ∈ l, wsChar c = false) :
    trimChars l = l := by
  unfold trimChars
  rw [dropWhile_of_all_false l h]
  rw [dropWhile_of_all_false l.reverse (fun c hc => h c (List.mem_reverse.mp hc))]
  exact List.reverse_reverse l

/-- No character of an integer token is whitespace. -/
theorem intToken_no_ws (a : Int) : ∀ c ∈ (intToken a).data, wsChar c = false := by
  intro c hc
  have hdig : ∀ x ∈ natDigits a.natAbs, wsChar x = false := by
    intro x hx
    have := natDigits_bounds a.natAbs x hx
    simp only [wsChar, decide_eq_false_iff_not]
    omega
  unfold intToken at hc
  split at hc
  · rcases List.mem_cons.mp hc with h | h
    · subst h; rfl
    · exact hdig c h
  · exact hdig c hc

/-- Parsing the token of an integer yields that integer literal. -/
theorem intToken_parse (a : Int) : Value.parse (intToken a) = some (Value.Int a) := by
  have hparse : parseIntChars (intToken a).data = some a := by
    unfold intToken
    split
    · next hneg =>
      show parseIntChars ('-' :: natDigits a.natAbs) = some a
      rw [parseIntChars]
      rw [if_neg (by decide), if_pos rfl]
      rw [digitsToNat_natDigits]
      show some (-(a.natAbs : Int)) = some a
      congr 1
      omega
    · next hpos =>
      cases hD : natDigits a.natAbs with
      | nil => exact absurd hD (natDigits_ne_nil _)
      | cons c l =>
        have hc : 48 ≤ c.toNat ∧ c.toNat ≤ 57 := by
          refine natDigits_bounds a.natAbs c ?_
          rw [hD]
          exact List.mem_cons_self c l
        show parseIntChars (c :: l) = some a
        rw [parseIntChars]
        rw [if_neg (by intro e; subst e; revert hc; decide)]
        rw [if_neg (by intro e; subst e; revert hc; decide)]
        rw [← hD, digitsToNat_natDigits]
        show some ((a.natAbs : Int)) = some a
        congr 1
        omega
  simp only [Value.parse]
  rw [trimChars_of_no_ws _ (intToken_no_ws a), hparse]

/-- Association-list lookup misses when every key differs. -/
theorem lookupAssoc_none_of_ne (w : Word) :
    ∀ m : List (Word × Entry), (∀ p ∈ m, p.1 ≠ w) → lookupAssoc m w = none := by
  intro m h
  induction m with
  | nil => rfl
  | cons p rest ih =>
    obtain ⟨k, e⟩ := p
    rw [lookupAssoc, if_neg (h (k, e) (List.mem_cons_self _ _))]
    exact ih (fun q hq => h q (List.mem_cons_of_mem _ hq))

/-- Every key of the default dictionary starts with a lowercase letter. -/
theorem defaultDict_keys_letter :
    ∀ p ∈ defaultDict.map, p.1.data ≠ []
      ∧ 97 ≤ (p.1.data.headD 'a').toNat ∧ (p.1.data.headD 'a').toNat ≤ 122 := by
  decide

/-- The default dictionary has no entry for any integer token, so lookup
of such a token falls through to the literal parser. -/
theorem defaultDict_lookup_intToken (a : Int) (fuel : Nat) :
    Inner.lookup defaultDict fuel (intToken a) = some none := by
  obtain ⟨c, l, hcl, hc⟩ := intToken_head a
  have hmiss : lookupAssoc defaultDict.map (intToken a) = none := by
    apply lookupAssoc_none_of_ne
    intro p hp he
    obtain ⟨hne, hlow, hhigh⟩ := defaultDict_keys_letter p hp
    rw [he, hcl] at hne hlow hhigh
    simp only [List.headD_cons] at hlow hhigh
    omega
  show Inner.lookup (Inner.root defaultDict.map) fuel (intToken a) = some none
  rw [Inner.lookup, hmiss]
  simp [chaseLocal]

/-- An integer token is not the quote prefix, a delimiter, or any
dictionary word: `run_one` on an idle evaluator parses it and pushes the
integer. -/
theorem runOne_intToken (f : Nat) (data : List Value) (a : Int) :
    runOne (f + 1) (Calc.mk defaultDict data StateStack.nil) (intToken a)
      = some (Calc.mk defaultDict (Value.Int a :: data) StateStack.nil, none) := by
  obtain ⟨c, l, hcl, hc⟩ := intToken_head a
  have hcomma : startsWithComma (intToken a) = false := by
    have : c ≠ ',' := by intro e; subst e; revert hc; decide
    simp [startsWithComma, hcl, this]
  have hbrace : intToken a ≠ openBrace := by
    intro e
    rw [e] at hcl
    have h2 : ('\x7b' :: [] : List Char) = c :: l := hcl
    have hc' : '\x7b' = c := (List.cons.inj h2).1
    rw [← hc'] at hc
    revert hc
    decide
  have hbracket : intToken a ≠ "[" := by
    intro e
    rw [e] at hcl
    have h2 : ('[' :: [] : List Char) = c :: l := hcl
    have hc' : '[' = c := (List.cons.inj h2).1
    rw [← hc'] at hc
    revert hc
    decide
  simp [runOne, hcomma, hbrace, hbracket, defaultDict_lookup_intToken, intToken_parse]

/-- C8.  For all integers `a`, `b`, running the tokens `a b add` on a
fresh evaluator leaves exactly the integer `a + b` on the stack: both
literals parse as integers and `perform_binop` keeps int⊕int integral. -/
theorem add_integer_tokens (a b : Int) (f : Nat) :
    runTokens (f + 1) freshCalc [intToken a, intToken b, "add"]
      = some (Calc.mk defaultDict [Value.Int (a + b)] StateStack.nil, none) := by
  have s1 := runOne_intToken f [] a
  have s2 := runOne_intToken f [Value.Int a] b
  simp only [runTokens, freshCalc, s1, s2]
  simp [runOne, runBuiltin, performBinop, getOperand, Inner.lookup, chaseLocal,
    lookupAssoc, defaultDict, defaultInserts, startsWithComma, openBrace,
    closeBrace, pushData]

/-! ## C4 — `map` runs the block per element and keeps the tops -/

/-- Successful `mapLoop` runs: the results are exactly the per-element
sub-evaluator tops, in input order and of the input's length. -/
theorem mapLoop_ok (fuel : Nat) (d : Inner) (blk : List Word) :
    ∀ (vs : List Value) (rs : List Value),
      mapLoop fuel d blk vs = some (Except.ok rs) →
      rs.length = vs.length
        ∧ ∀ i (hv : i < vs.length) (hr : i < rs.length),
            ∃ sub, elemRun fuel d blk (vs.get ⟨i, hv⟩) = some (sub, none)
              ∧ sub.data.head? = some (rs.get ⟨i, hr⟩) := by
  intro vs
  induction vs with
  | nil =>
    intro rs h
    simp [mapLoop] at h
    subst h
    exact ⟨rfl, fun i hv => absurd hv (by simp)⟩
  | cons v vs ih =>
    intro rs h
    rw [mapLoop] at h
    split at h
    · exact absurd h (by simp)
    · exact absurd h (by simp)
    · rename_i sub heq
      split at h
      · exact absurd h (by simp)
      · rename_i r tail hd
        split at h
        · exact absurd h (by simp)
        · exact absurd h (by simp)
        · rename_i rs' hm
          simp only [Option.some.injEq, Except.ok.injEq] at h
          subst h
          obtain ⟨hlen, hidx⟩ := ih rs' hm
          refine ⟨by simp [hlen], ?_⟩
          intro i hv hr
          cases i with
          | zero =>
            refine ⟨sub, ?_, ?_⟩
            · show runTokens fuel (Calc.mk (Inner.child [] d)
                  [(v :: vs).get ⟨0, hv⟩] StateStack.nil) blk = some (sub, none)
              simpa using heq
            · simp [hd]
          | succ j =>
            have hv' : j < vs.length := by simpa using hv
            have hr' : j < rs'.length := by simpa using hr
            obtain ⟨sub', h1, h2⟩ := hidx j hv' hr'
            exact ⟨sub', by simpa using h1, by simpa using h2⟩

/-- If every element before `v` produces a result and `v`'s sub-run
finishes with an empty stack, `mapLoop` fails with
block-produced-no-result. -/
theorem mapLoop_err (fuel : Nat) (d : Inner) (blk : List Word) :
    ∀ (pre : List Value) (v : Value) (post : List Value),
      (∀ u ∈ pre, ∃ sub r, elemRun fuel d blk u = some (sub, none)
        ∧ sub.data.head? = some r) →
      (∃ sub, elemRun fuel d blk v = some (sub, none) ∧ sub.data = []) →
      mapLoop fuel d blk (pre ++ v :: post) = some (Except.error Err.BlockNoResult) := by
  intro pre
  induction pre with
  | nil =>
    intro v post _ hv
    obtain ⟨sub, he, hd⟩ := hv
    simp only [elemRun] at he
    rw [List.nil_append]
    simp [mapLoop, he, hd]
  | cons u pre ih =>
    intro v post hpre hv
    obtain ⟨sub, r, he, hr⟩ := hpre u (List.mem_cons_self _ _)
    simp only [elemRun] at he
    cases hd : sub.data with
    | nil => rw [hd] at hr; exact absurd hr (by simp)
    | cons r' tail =>
      rw [List.cons_append]
      simp [mapLoop, he, hd,
        ih v post (fun w hw => hpre w (List.mem_cons_of_mem _ hw)) hv]

/-- C4.  `map` pops a Block then a Vector.  First conjunct: a successful
run pushes one Vector whose length equals the input's and whose `i`-th
element is the top of the sub-evaluator obtained by running the block on
the `i`-th input element in a fresh child-scoped evaluator (values below
the top are discarded), leaving the rest of the stack untouched.  Second
conjunct: if some element's sub-evaluator finishes with an empty stack
(all earlier ones having produced results), the whole builtin fails with
the block-produced-no-result error. -/
theorem map_per_element_tops (fuel : Nat) (d : Inner) (blk : List Word)
    (vs : List Value) (rest : List Value) (st : StateStack) :
    (∀ c', runBuiltin fuel (Calc.mk d (Value.Block blk :: Value.Vector vs :: rest) st)
          BuiltinWord.Map = some (c', none) →
      ∃ rs, c' = Calc.mk d (Value.Vector rs :: rest) st
        ∧ rs.length = vs.length
        ∧ ∀ i (hv : i < vs.length) (hr : i < rs.length),
            ∃ sub, elemRun fuel d blk (vs.get ⟨i, hv⟩) = some (sub, none)
              ∧ sub.data.head? = some (rs.get ⟨i, hr⟩))
    ∧ (∀ (pre : List Value) (v : Value) (post : List Value),
        vs = pre ++ v :: post →
        (∀ u ∈ pre, ∃ sub r, elemRun fuel d blk u = some (sub, none)
          ∧ sub.data.head? = some r) →
        (∃ sub, elemRun fuel d blk v = some (sub, none) ∧ sub.data = []) →
        runBuiltin fuel (Calc.mk d (Value.Block blk :: Value.Vector vs :: rest) st)
            BuiltinWord.Map
          = some (Calc.mk d rest st, some Err.BlockNoResult)) := by
  have hrb : runBuiltin fuel (Calc.mk d (Value.Block blk :: Value.Vector vs :: rest) st)
      BuiltinWord.Map
      = match mapLoop fuel d blk vs with
        | none => none
        | some (Except.error e) => some (Calc.mk d rest st, some e)
        | some (Except.ok rs) =>
          some (Calc.mk d (Value.Vector rs :: rest) st, none) := by
    simp [runBuiltin, getBlock, getVector, getOperand, Calc.dict, pushData]
  constructor
  · intro c' h
    rw [hrb] at h
    rcases hm : mapLoop fuel d blk vs with _ | hrs
    · rw [hm] at h; exact absurd h (by simp)
    · rw [hm] at h
      cases hrs with
      | error e => exact absurd h (by simp)
      | ok rs =>
        simp only [Option.some.injEq, Prod.mk.injEq] at h
        obtain ⟨hlen, hidx⟩ := mapLoop_ok fuel d blk vs rs hm
        exact ⟨rs, h.1.symm, hlen, hidx⟩
  · intro pre v post hvs hpre hv
    rw [hrb, hvs, mapLoop_err fuel d blk pre v post hpre hv]

/-- Witness for C4: mapping the empty block over `[7]` succeeds, and the
theorem reports the single result as the sub-evaluator's top `7`. -/
theorem map_per_element_tops_witness :
    ∃ rs, (Calc.mk defaultDict [Value.Vector [Value.Int 7]] StateStack.nil : Calc)
        = Calc.mk defaultDict (Value.Vector rs :: []) StateStack.nil
      ∧ rs.length = [Value.Int 7].length
      ∧ ∀ i (hv : i < [Value.Int 7].length) (hr : i < rs.length),
          ∃ sub, elemRun 1 defaultDict [] ([Value.Int 7].get ⟨i, hv⟩) = some (sub, none)
            ∧ sub.data.head? = some (rs.get ⟨i, hr⟩) := by
  refine (map_per_element_tops 1 defaultDict [] [Value.Int 7] [] StateStack.nil).1
    (Calc.mk defaultDict [Value.Vector [Value.Int 7]] StateStack.nil) ?_
  simp [runBuiltin, getBlock, getVector, getOperand, Calc.dict, pushData,
    mapLoop, runTokens, Calc.data]

/-! ## C5 — `filter` keeps originals by integer/boolean truth of the top -/

/-- Whatever the flags, the kept elements form a subsequence of the
input in order. -/
theorem keepFlags_sublist : ∀ (vs : List Value) (flags : List Bool),
    (keepFlags vs flags).Sublist vs := by
  intro vs
  induction vs with
  | nil => intro flags; cases flags <;> simp [keepFlags]
  | cons v vs ih =>
    intro flags
    cases flags with
    | nil => simp [keepFlags]
    | cons b bs =>
      rw [keepFlags]
      by_cases hb : b
      · simpa [hb] using List.Sublist.cons₂ v (ih bs)
      · simpa [hb] using List.Sublist.cons v (ih bs)

/-- Successful `filterLoop` runs: there is one retention flag per input
element, equal to the truthiness of that element's sub-evaluator top,
and the result keeps exactly the flagged originals in order. -/
theorem filterLoop_ok (fuel : Nat) (d : Inner) (blk : List Word) :
    ∀ (vs : List Value) (rs : List Value),
      filterLoop fuel d blk vs = some (Except.ok rs) →
      ∃ flags : List Bool, flags.length = vs.length
        ∧ (∀ i (hv : i < vs.length) (hf : i < flags.length),
            ∃ sub top, elemRun fuel d blk (vs.get ⟨i, hv⟩) = some (sub, none)
              ∧ sub.data.head? = some top ∧ flags.get ⟨i, hf⟩ = truthy top)
        ∧ rs = keepFlags vs flags := by
  intro vs
  induction vs with
  | nil =>
    intro rs h
    simp [filterLoop] at h
    subst h
    exact ⟨[], rfl, fun i hv => absurd hv (by simp), rfl⟩
  | cons v vs ih =>
    intro rs h
    rw [filterLoop] at h
    split at h
    · exact absurd h (by simp)
    · exact absurd h (by simp)
    · rename_i sub heq
      split at h
      · exact absurd h (by simp)
      · rename_i r tail hd
        split at h
        · exact absurd h (by simp)
        · exact absurd h (by simp)
        · rename_i rs' hm
          obtain ⟨flags', hlen, hidx, hkeep⟩ := ih rs' hm
          have hres : rs = keepFlags (v :: vs) (truthy r :: flags') := by
            rw [keepFlags]
            cases r with
            | Int x =>
              by_cases hx : x = 0
              · simp [hx] at h
                subst h
                simp [truthy, hx, hkeep]
              · simp [hx] at h
                subst h
                simp [truthy, hx, hkeep]
            | Bool b =>
              cases b with
              | true =>
                simp at h
                subst h
                simp [truthy, hkeep]
              | false =>
                simp at h
                subst h
                simp [truthy, hkeep]
            | Undef =>
              simp at h
              subst h
              simp [truthy, hkeep]
            | Float q =>
              simp at h
              subst h
              simp [truthy, hkeep]
            | Vector es =>
              simp at h
              subst h
              simp [truthy, hkeep]
            | Block ts =>
              simp at h
              subst h
              simp [truthy, hkeep]
            | QuotedWord w =>
              simp at h
              subst h
              simp [truthy, hkeep]
          refine ⟨truthy r :: flags', by simp [hlen], ?_, hres⟩
          intro i hv hf
          cases i with
          | zero =>
            refine ⟨sub, r, ?_, by simp [hd], by simp⟩
            show runTokens fuel (Calc.mk (Inner.child [] d)
                [(v :: vs).get ⟨0, hv⟩] StateStack.nil) blk = some (sub, none)
            simpa using heq
          | succ j =>
            have hv' : j < vs.length := by simpa using hv
            have hf' : j < flags'.length := by simpa using hf
            obtain ⟨sub', top', h1, h2, h3⟩ := hidx j hv' hf'
            exact ⟨sub', top', by simpa using h1, h2, by simpa using h3⟩

/-- C5.  First conjunct: a successful `filter` pushes the subsequence of
the original input elements whose sub-evaluator top is truthy — a
nonzero Integer or the Boolean `true` — keeping relative order (the
result is `keepFlags` of the per-element truth flags and a `Sublist` of
the input).  Second conjunct: a Float top, whatever its value, is never
truthy. -/
theorem filter_retains_by_truthy_top (fuel : Nat) (d : Inner) (blk : List Word)
    (vs : List Value) (rest : List Value) (st : StateStack) :
    (∀ c', runBuiltin fuel (Calc.mk d (Value.Block blk :: Value.Vector vs :: rest) st)
          BuiltinWord.Filter = some (c', none) →
      ∃ (rs : List Value) (flags : List Bool), c' = Calc.mk d (Value.Vector rs :: rest) st
        ∧ flags.length = vs.length
        ∧ (∀ i (hv : i < vs.length) (hf : i < flags.length),
            ∃ sub top, elemRun fuel d blk (vs.get ⟨i, hv⟩) = some (sub, none)
              ∧ sub.data.head? = some top ∧ flags.get ⟨i, hf⟩ = truthy top)
        ∧ rs = keepFlags vs flags
        ∧ rs.Sublist vs)
    ∧ (∀ q : ℚ, truthy (Value.Float q) = false) := by
  have hrb : runBuiltin fuel (Calc.mk d (Value.Block blk :: Value.Vector vs :: rest) st)
      BuiltinWord.Filter
      = match filterLoop fuel d blk vs with
        | none => none
        | some (Except.error e) => some (Calc.mk d rest st, some e)
        | some (Except.ok rs) =>
          some (Calc.mk d (Value.Vector rs :: rest) st, none) := by
    simp [runBuiltin, getBlock, getVector, getOperand, Calc.dict, pushData]
  constructor
  · intro c' h
    rw [hrb] at h
    rcases hm : filterLoop fuel d blk vs with _ | hrs
    · rw [hm] at h; exact absurd h (by simp)
    · rw [hm] at h
      cases hrs with
      | error e => exact absurd h (by simp)
      | ok rs =>
        simp only [Option.some.injEq, Prod.mk.injEq] at h
        obtain ⟨flags, hlen, hidx, hkeep⟩ := filterLoop_ok fuel d blk vs rs hm
        exact ⟨rs, flags, h.1.symm, hlen, hidx, hkeep,
          hkeep ▸ keepFlags_sublist vs flags⟩
  · intro q
    rfl

/-- Witness for C5: filtering `[1, 2.0, 0]` through the empty block
keeps only the nonzero integer — the nonzero Float is dropped. -/
theorem filter_retains_by_truthy_top_witness :
    ∃ (rs : List Value) (flags : List Bool),
      (Calc.mk defaultDict [Value.Vector [Value.Int 1]] StateStack.nil : Calc)
        = Calc.mk defaultDict (Value.Vector rs :: []) StateStack.nil
      ∧ flags.length = [Value.Int 1, Value.Float 2, Value.Int 0].length
      ∧ (∀ i (hv : i < [Value.Int 1, Value.Float 2, Value.Int 0].length)
            (hf : i < flags.length),
          ∃ sub top, elemRun 1 defaultDict []
              ([Value.Int 1, Value.Float 2, Value.Int 0].get ⟨i, hv⟩) = some (sub, none)
            ∧ sub.data.head? = some top ∧ flags.get ⟨i, hf⟩ = truthy top)
      ∧ rs = keepFlags [Value.Int 1, Value.Float 2, Value.Int 0] flags
      ∧ rs.Sublist [Value.Int 1, Value.Float 2, Value.Int 0] := by
  refine (filter_retains_by_truthy_top 1 defaultDict []
    [Value.Int 1, Value.Float 2, Value.Int 0] [] StateStack.nil).1
    (Calc.mk defaultDict [Value.Vector [Value.Int 1]] StateStack.nil) ?_
  simp [runBuiltin, getBlock, getVector, getOperand, Calc.dict, pushData,
    filterLoop, runTokens, Calc.data]

end Pnc
